import Mathlib

/-!
Verification development for the NL2FOFA repository.

The TypeScript sources (`src/llmService.ts`, `src/fofaService.ts`,
`src/orchestrator.ts`, `src/types.ts`) are shallowly embedded below.
Remote HTTP calls (the completion service and the FOFA search API) are
modelled as oracle parameters describing the outcome of the single
network interaction each function performs; thrown JavaScript errors are
modelled with `Except String`, carrying the thrown error message.
JavaScript runtime primitives used by the code (string trimming, regular
expression matching of the concrete patterns appearing in the source,
`JSON.parse`, property access and truthiness) are modelled as executable
Lean functions.
-/

/-- Models the JavaScript whitespace class (`\s`, and what `String.prototype.trim`
removes) for the characters relevant to this code base. -/
def isJsWhitespace (c : Char) : Bool :=
  c == ' ' || c == '\t' || c == '\n' || c == '\r' || c == '\x0B' || c == '\x0C' ||
  c == ' ' || c == '﻿'

/-- Models `String.prototype.trim`: removes leading and trailing whitespace. -/
def jsTrim (s : String) : String :=
  ⟨((s.data.dropWhile isJsWhitespace).reverse.dropWhile isJsWhitespace).reverse⟩

/-- Models the JavaScript regex class `\w` (word character): `[A-Za-z0-9_]`. -/
def isWordChar (c : Char) : Bool :=
  ('A' ≤ c && c ≤ 'Z') || ('a' ≤ c && c ≤ 'z') || ('0' ≤ c && c ≤ '9') || c == '_'

/-- `FofaResult` from `src/types.ts`. -/
structure FofaResult where
  ip : String
  port : String
  title : String
  host : String

/-- The part of `FofaApiResponse` (`src/types.ts`) that `executeFofaQuery`
inspects: the in-band `error` flag and the raw `results` rows.  `results`
is `Option`-valued because `transformResults` explicitly guards against a
missing (`undefined`) `results` field. -/
structure FofaApiResponse where
  error : Bool
  results : Option (List (List String))

/-- Models the shape of an error thrown by the HTTP client (axios) or any
other error reaching the `catch` block of `executeFofaQuery`:
`axios.isAxiosError(e)`, `e.response?.status`, `e.code`, `e.message`. -/
structure AxiosErr where
  isAxiosError : Bool
  status : Option Nat
  code : Option String
  message : String

/-- Oracle describing the outcome of the single FOFA API call made by
`executeFofaQuery`: either the HTTP request resolved with a 2xx payload,
or it threw an error. -/
inductive FofaNet where
  | ok (resp : FofaApiResponse)
  | err (e : AxiosErr)

/-- `FofaService.validateQuery` from `src/fofaService.ts`:

    if (!query || query.trim().length === 0) return false;
    const hasValidSyntax = /[=:]/.test(query) || /\w+/.test(query);
    const quotes = query.match(/"/g);
    const quotesBalanced = !quotes || quotes.length % 2 === 0;
    const openParens = (query.match(/\(/g) || []).length;
    const closeParens = (query.match(/\)/g) || []).length;
    const parensBalanced = openParens === closeParens;
    return hasValidSyntax && quotesBalanced && parensBalanced;

`query.match(/"/g)` is `null` when there is no match, hence the
`quotes == 0 ||` disjunct mirroring `!quotes`. -/
def validateQuery (query : String) : Bool :=
  if query == "" || (jsTrim query).length == 0 then false
  else
    let hasValidSyntax := query.data.any (fun c => c == '=' || c == ':') ||
      query.data.any isWordChar
    let quotes := query.data.count '"'
    let quotesBalanced := quotes == 0 || quotes % 2 == 0
    let openParens := query.data.count '('
    let closeParens := query.data.count ')'
    let parensBalanced := openParens == closeParens
    hasValidSyntax && quotesBalanced && parensBalanced

/-- `FofaService.transformResults` from `src/fofaService.ts`: normalizes the
raw rows, defaulting each positional field to `""` (`result[i] || ''`). -/
def transformResults (rawResults : Option (List (List String))) : List FofaResult :=
  match rawResults with
  | none => []
  | some rows => rows.map (fun r => ⟨r.getD 0 "", r.getD 1 "", r.getD 2 "", r.getD 3 ""⟩)

/-- `FofaService.executeFofaQuery` from `src/fofaService.ts`, with the
network call replaced by the oracle `net`.  The thrown error messages are
the exact strings from the source.  Note that the in-band error branch
(`response.data.error`) throws inside the `try` block, so that error is
caught by the same `catch` and re-wrapped by the final generic `throw`
(it is not an axios error). -/
def executeFofaQuery (net : FofaNet) (query : String) (_size : Nat) (_page : Nat) :
    Except String (List FofaResult) :=
  if !validateQuery query then
    .error ("无效的FOFA查询语法: " ++ query)
  else
    match net with
    | .ok resp =>
      if resp.error then
        .error ("FOFA查询执行失败: " ++ "FOFA API返回错误，请检查查询语法或API配置")
      else
        .ok (transformResults resp.results)
    | .err e =>
      if e.isAxiosError && e.status == some 401 then
        .error "FOFA API认证失败，请检查email和API key配置"
      else if e.isAxiosError && e.status == some 403 then
        .error "FOFA API访问被拒绝，可能是查询配额不足"
      else if e.isAxiosError && e.code == some "ECONNABORTED" then
        .error "FOFA API请求超时，请稍后重试"
      else
        .error ("FOFA查询执行失败: " ++ e.message)

/-! ### JavaScript values and `JSON.parse`

`convertTextToFofaQuery` feeds the completion text to the runtime's
`JSON.parse` and forwards the (untyped) `fofa_query` / `explanation`
properties of whatever that returns.  `JVal` models the JavaScript values
that can arise there; `jsonParse` models the ECMAScript `JSON.parse`
builtin (the relevant external runtime primitive) as a total recursive
descent parser. -/

/-- A JavaScript value as produced by `JSON.parse` (plus `undefined`,
which property access on a missing key produces).  Numbers keep their raw
numeral text; no code in this pipeline computes with them. -/
inductive JVal where
  | undefined
  | null
  | bool (b : Bool)
  | num (raw : String)
  | str (s : String)
  | arr (elems : List JVal)
  | obj (fields : List (String × JVal))

/-- The value of JavaScript property access `v[key]` when it does not
throw (the receiver is neither `null` nor `undefined`): missing keys and
primitive receivers give `undefined`; duplicate keys in a parsed object
resolve to the last occurrence, as in `JSON.parse`.  `jsGetE` below is
the full fallible access. -/
def jsGet (v : JVal) (key : String) : JVal :=
  match v with
  | .obj kvs =>
    (kvs.foldl (fun acc kv => if kv.1 == key then some kv.2 else acc) none).getD .undefined
  | _ => .undefined

/-- JavaScript property access `v[key]` as a fallible operation: access
on a `null` or `undefined` receiver throws a `TypeError` (modelled as the
error message `"TypeError"`); any other receiver yields `jsGet`. -/
def jsGetE (v : JVal) (key : String) : Except String JVal :=
  match v with
  | .null => .error "TypeError"
  | .undefined => .error "TypeError"
  | _ => .ok (jsGet v key)

/-- JavaScript index access `v[i]` on a non-throwing receiver: array
element, object property with the numeric key, or single-character
string; `undefined` otherwise. -/
def jsIdx (v : JVal) (i : Nat) : JVal :=
  match v with
  | .arr l => l.getD i .undefined
  | .obj _ => jsGet v (toString i)
  | .str s =>
    if i < s.data.length then .str ⟨[s.data.getD i '\x00']⟩ else .undefined
  | _ => .undefined

/-- Whether a raw JSON numeral denotes zero: every digit of its mantissa
is `0` (the exponent part is irrelevant). -/
def numIsZero (raw : String) : Bool :=
  (raw.data.takeWhile (fun c => c != 'e' && c != 'E')).all
    (fun c => !c.isDigit || c == '0')

/-- JavaScript truthiness of a `JVal`. -/
def jsTruthy : JVal → Bool
  | .undefined => false
  | .null => false
  | .bool b => b
  | .num raw => !numIsZero raw
  | .str s => s != ""
  | .arr _ => true
  | .obj _ => true

/-- JSON whitespace (RFC 8259 / ECMA-404). -/
def isJsonWs (c : Char) : Bool :=
  c == ' ' || c == '\t' || c == '\n' || c == '\r'

/-- Hexadecimal digit value, for `\uXXXX` escapes. -/
def hexVal (c : Char) : Option Nat :=
  let n := c.toNat
  if 48 ≤ n && n ≤ 57 then some (n - 48)
  else if 97 ≤ n && n ≤ 102 then some (n - 87)
  else if 65 ≤ n && n ≤ 70 then some (n - 55)
  else none

/-- The table of two-character JSON string escapes. -/
def escTable : List (Char × Char) :=
  [('"', '"'), ('\\', '\\'), ('/', '/'), ('b', '\x08'), ('f', '\x0C'),
   ('n', '\n'), ('r', '\r'), ('t', '\t')]

/-- Single-character JSON string escapes. -/
def escChar (c : Char) : Option Char :=
  escTable.lookup c

/-- Parses the body of a JSON string (after the opening quote), returning
the decoded characters and the remainder after the closing quote.
Fuelled; `fuel = length + 1` always suffices since each step consumes at
least one character. -/
def parseStringBody : Nat → List Char → Option (List Char × List Char)
  | 0, _ => none
  | _, [] => none
  | f + 1, c :: rest =>
    if c == '"' then some ([], rest)
    else if c == '\\' then
      match rest with
      | [] => none
      | e :: rest2 =>
        if e == 'u' then
          match rest2 with
          | h1 :: h2 :: h3 :: h4 :: rest3 =>
            match [h1, h2, h3, h4].mapM hexVal with
            | some ds =>
              (parseStringBody f rest3).map
                (fun p => (Char.ofNat (ds.foldl (fun a d => 16 * a + d) 0) :: p.1, p.2))
            | none => none
          | _ => none
        else
          match escChar e with
          | some d => (parseStringBody f rest2).map (fun p => (d :: p.1, p.2))
          | none => none
    else if c.toNat < 32 then none
    else (parseStringBody f rest).map (fun p => (c :: p.1, p.2))

/-- Parses a JSON number token, returning its raw characters and the
remainder. -/
def parseNumber (cs : List Char) : Option (List Char × List Char) :=
  let (sign, cs1) : List Char × List Char :=
    match cs with
    | '-' :: r => (['-'], r)
    | _ => ([], cs)
  match cs1 with
  | c :: rest =>
    if !c.isDigit then none
    else
      let (intPart, afterInt) : List Char × List Char :=
        if c == '0' then (['0'], rest)
        else (c :: rest.takeWhile Char.isDigit, rest.dropWhile Char.isDigit)
      let fracStep : Option (List Char × List Char) :=
        match afterInt with
        | '.' :: r2 =>
          let ds := r2.takeWhile Char.isDigit
          if ds.isEmpty then none
          else some (['.'] ++ ds, r2.dropWhile Char.isDigit)
        | _ => some ([], afterInt)
      match fracStep with
      | none => none
      | some (fracPart, afterFrac) =>
        let expStep : Option (List Char × List Char) :=
          match afterFrac with
          | e :: r3 =>
            if e == 'e' || e == 'E' then
              let (sgn, r4) : List Char × List Char :=
                match r3 with
                | s :: r4' => if s == '+' || s == '-' then ([s], r4') else ([], r3)
                | [] => ([], r3)
              let ds := r4.takeWhile Char.isDigit
              if ds.isEmpty then none
              else some ([e] ++ sgn ++ ds, r4.dropWhile Char.isDigit)
            else some ([], afterFrac)
          | [] => some ([], afterFrac)
        match expStep with
        | none => none
        | some (expPart, afterExp) =>
          some (sign ++ intPart ++ fracPart ++ expPart, afterExp)
  | [] => none

mutual

/-- Recursive-descent JSON value parser (fuelled). -/
def parseVal (fuel : Nat) (cs : List Char) : Option (JVal × List Char) :=
  match fuel with
  | 0 => none
  | f + 1 =>
    match cs.dropWhile isJsonWs with
    | [] => none
    | c :: rest =>
      if c == '\x7b' then
        match rest.dropWhile isJsonWs with
        | '\x7d' :: r2 => some (.obj [], r2)
        | _ => (parseMembers f rest).map (fun p => (.obj p.1, p.2))
      else if c == '[' then
        match rest.dropWhile isJsonWs with
        | ']' :: r2 => some (.arr [], r2)
        | _ => (parseElems f rest).map (fun p => (.arr p.1, p.2))
      else if c == '"' then
        (parseStringBody (rest.length + 1) rest).map (fun p => (.str ⟨p.1⟩, p.2))
      else if c == 't' then
        match rest with
        | 'r' :: 'u' :: 'e' :: r => some (.bool true, r)
        | _ => none
      else if c == 'f' then
        match rest with
        | 'a' :: 'l' :: 's' :: 'e' :: r => some (.bool false, r)
        | _ => none
      else if c == 'n' then
        match rest with
        | 'u' :: 'l' :: 'l' :: r => some (.null, r)
        | _ => none
      else
        (parseNumber (c :: rest)).map (fun p => (.num ⟨p.1⟩, p.2))

/-- Parses the members of a JSON object after the opening brace. -/
def parseMembers (fuel : Nat) (cs : List Char) :
    Option (List (String × JVal) × List Char) :=
  match fuel with
  | 0 => none
  | f + 1 =>
    match cs.dropWhile isJsonWs with
    | '"' :: rest =>
      match parseStringBody (rest.length + 1) rest with
      | none => none
      | some (key, r1) =>
        match r1.dropWhile isJsonWs with
        | ':' :: r2 =>
          match parseVal f r2 with
          | none => none
          | some (v, r3) =>
            match r3.dropWhile isJsonWs with
            | ',' :: r4 => (parseMembers f r4).map (fun p => ((⟨key⟩, v) :: p.1, p.2))
            | '\x7d' :: r4 => some ([(⟨key⟩, v)], r4)
            | _ => none
        | _ => none
    | _ => none

/-- Parses the elements of a JSON array after the opening bracket. -/
def parseElems (fuel : Nat) (cs : List Char) : Option (List JVal × List Char) :=
  match fuel with
  | 0 => none
  | f + 1 =>
    match parseVal f cs with
    | none => none
    | some (v, r1) =>
      match r1.dropWhile isJsonWs with
      | ',' :: r2 => (parseElems f r2).map (fun p => (v :: p.1, p.2))
      | ']' :: r2 => some ([v], r2)
      | _ => none

end

/-- Models `JSON.parse`: parses one JSON value and rejects trailing
garbage; `none` models a thrown `SyntaxError`. -/
def jsonParse (s : String) : Option JVal :=
  match parseVal (2 * s.data.length + 4) s.data with
  | some (v, rest) => if (rest.dropWhile isJsonWs).isEmpty then some v else none
  | none => none

/-- `LLMResponse` from `src/types.ts`: `fofa_query: string | null`. -/
structure LLMResponse where
  fofa_query : Option String
  explanation : String

/-- `ProcessResult` from `src/types.ts`. -/
structure ProcessResult where
  success : Bool
  data : Option (List FofaResult)
  error : Option String
  query : Option String
  explanation : Option String

/-- JavaScript truthiness of a `string | null` value: `null` and `""` are
falsy, every other string is truthy. -/
def jsTruthyOpt : Option String → Bool
  | none => false
  | some s => s != ""

/-- `Orchestrator.processUserQuery` from `src/orchestrator.ts`.  The two
service calls are oracles: `llm` is the settled result of
`convertTextToFofaQuery` (value or thrown message) and `fofa q n` the
settled result of `executeFofaQuery(q, n)`.  The `!llmResponse.fofa_query`
truthiness check short-circuits on both `null` and the empty string. -/
def processUserQuery (llm : Except String LLMResponse)
    (fofa : String → Nat → Except String (List FofaResult))
    (userInput : String) (resultSize : Nat) : ProcessResult :=
  match llm with
  | .error m => ⟨false, none, some m, none, none⟩
  | .ok r =>
    let noQuery : ProcessResult :=
      ⟨false, none,
        some ("无法理解您的查询请求: \"" ++ userInput ++ "\"\n" ++ r.explanation),
        none, none⟩
    match r.fofa_query with
    | none => noQuery
    | some q =>
      if q == "" then noQuery
      else
        match fofa q resultSize with
        | .error m => ⟨false, none, some m, none, none⟩
        | .ok results => ⟨true, some results, none, some q, some r.explanation⟩

/-! ### The response extractor (`src/llmService.ts`)

`extractFromText` uses three concrete regular expressions:
`/"fofa_query"\s*:\s*"([^"]+)"/`, `/"explanation"\s*:\s*"([^"]+)"/` and
`/:\s*"([^"]+)"/`.  In each, backtracking is vacuous: `\s*` is followed
by a non-whitespace literal and `[^"]+` by `"`, so matching is the
deterministic scan implemented below; `String.prototype.match` returns
the leftmost match, modelled by trying every start position from the
left. -/

/-- Consumes the literal `lit` from the front of `cs`, returning the
remainder. -/
def dropLit : List Char → List Char → Option (List Char)
  | [], cs => some cs
  | _, [] => none
  | k :: ks, c :: cs => if c == k then dropLit ks cs else none

/-- Matches `\s*"([^"]+)"` at the start of `cs`, returning the capture. -/
def matchQuotedCapture (cs : List Char) : Option String :=
  match cs.dropWhile isJsWhitespace with
  | '"' :: rest =>
    let cap := rest.takeWhile (fun c => c != '"')
    match rest.dropWhile (fun c => c != '"') with
    | '"' :: _ => if cap.isEmpty then none else some ⟨cap⟩
    | _ => none
  | _ => none

/-- Matches `\s*:\s*"([^"]+)"` at the start of `cs`. -/
def matchColonQuoted (cs : List Char) : Option String :=
  match cs.dropWhile isJsWhitespace with
  | ':' :: rest => matchQuotedCapture rest
  | _ => none

/-- Attempts `"key"\s*:\s*"([^"]+)"` anchored at the start of `cs`. -/
def tryKeyAt (key : List Char) (cs : List Char) : Option String :=
  match dropLit ('"' :: key ++ ['"']) cs with
  | some rest => matchColonQuoted rest
  | none => none

/-- `text.match(/"key"\s*:\s*"([^"]+)"/)`: leftmost match, capture group 1. -/
def matchKeyQuoted (key : List Char) : List Char → Option String
  | [] => none
  | c :: rest =>
    match tryKeyAt key (c :: rest) with
    | some s => some s
    | none => matchKeyQuoted key rest

/-- `line.match(/:\s*"([^"]+)"/)`: leftmost match, capture group 1. -/
def matchColonPat : List Char → Option String
  | [] => none
  | c :: rest =>
    if c == ':' then
      match matchQuotedCapture rest with
      | some s => some s
      | none => matchColonPat rest
    else matchColonPat rest

/-- `haystack.includes(needle)` on character lists. -/
def listContainsSub (needle : List Char) : List Char → Bool
  | [] => needle.isEmpty
  | c :: rest => (dropLit needle (c :: rest)).isSome || listContainsSub needle rest

/-- The line loop of `extractFromText`: both `if` statements run for every
line, each keeping the last successful capture (`fofaQuery` starts as
`null`, `explanation` as `""`). -/
def scanLines : List String → Option String × String → Option String × String
  | [], acc => acc
  | line :: rest, (fq, ex) =>
    let fq' :=
      if listContainsSub "fofa_query".data line.data && line.data.contains ':' then
        match matchColonPat line.data with
        | some m => some m
        | none => fq
      else fq
    let ex' :=
      if listContainsSub "explanation".data line.data && line.data.contains ':' then
        match matchColonPat line.data with
        | some m => m
        | none => ex
      else ex
    scanLines rest (fq', ex')

/-- `text.split("\n")` on character lists: splits at every newline,
keeping empty segments (so `"" ↦ [""]`, `"a\n" ↦ ["a", ""]`). -/
def splitLines : List Char → List (List Char)
  | [] => [[]]
  | c :: rest =>
    match splitLines rest with
    | [] => [[c]]
    | l :: ls => if c == '\n' then [] :: l :: ls else (c :: l) :: ls

/-- `text.split("\n")`, as used by `extractFromText`. -/
def jsSplitNewline (s : String) : List String :=
  (splitLines s.data).map (⟨·⟩)

/-- `LLMService.extractFromText` from `src/llmService.ts`.  The
surrounding `try`/`catch` is dead code (no statement in the body throws),
so it is not modelled.  If the two whole-text regexes do not both match,
the line-oriented scan runs from scratch; an empty accumulated
explanation falls back to the literal `"从文本中提取的查询"`. -/
def extractFromText (text : String) : LLMResponse :=
  match matchKeyQuoted "fofa_query".data text.data,
        matchKeyQuoted "explanation".data text.data with
  | some q, some e => ⟨some q, e⟩
  | _, _ =>
    let acc := scanLines (jsSplitNewline text) (none, "")
    ⟨acc.1, if acc.2 == "" then "从文本中提取的查询" else acc.2⟩

/-- `.replace(/\s*```$/, "")`: when the string ends with a fence marker,
the leftmost match of the pattern removes the final three backticks and
the maximal whitespace run immediately before them; otherwise the string
is unchanged. -/
def fenceTrail (t : String) : String :=
  match dropLit "```".data t.data.reverse with
  | some rest => ⟨(rest.dropWhile isJsWhitespace).reverse⟩
  | none => t

/-- The markdown fence stripping of `convertTextToFofaQuery`
(`src/llmService.ts` lines 40-49): `.replace(/^```json\s*/, "")` then
`.replace(/\s*```$/, "")` when the trimmed content starts with a fence;
otherwise the content is left untouched. -/
def stripFences (s : String) : String :=
  match dropLit "```json".data s.data with
  | some rest => fenceTrail ⟨rest.dropWhile isJsWhitespace⟩
  | none =>
    match dropLit "```".data s.data with
    | some rest => fenceTrail ⟨rest.dropWhile isJsWhitespace⟩
    | none => s

/-- `let cleanContent = content.trim()` followed by the fence stripping. -/
def cleanContent (content : String) : String :=
  stripFences (jsTrim content)

/-- The value actually returned by `convertTextToFofaQuery`: the declared
TypeScript type is `LLMResponse`, but on the strict-parse path the two
fields are forwarded untyped from whatever `JSON.parse` produced, so they
are modelled as JavaScript values. -/
structure JsLLMResponse where
  fofa_query : JVal
  explanation : JVal

/-- The body of the inner `try` of `convertTextToFofaQuery`:
`JSON.parse` of the cleaned content followed by the two property accesses
of the returned object literal.  `none` models a thrown exception — a
`SyntaxError` from unparsable text, or a `TypeError` from
`parsedResponse.fofa_query` when the parsed value is the literal `null` —
either of which the inner `catch` turns into the fallback path. -/
def parseStep (cleaned : String) : Option JsLLMResponse :=
  match jsonParse cleaned with
  | none => none
  | some parsed =>
    match jsGetE parsed "fofa_query", jsGetE parsed "explanation" with
    | .ok q, .ok e => some ⟨q, e⟩
    | _, _ => none

/-- The response-extraction procedure: the inner `try`/`catch` of
`convertTextToFofaQuery` (`src/llmService.ts` lines 36-70) applied to the
extracted completion text.  The strict step (`parseStep`) parses the
cleaned content and reads the two fields; if it throws, `extractFromText`
runs, whose result is returned only when its `fofa_query` is truthy;
otherwise the fixed parse-failure result
`{fofa_query: null, explanation: "无法解析LLM响应"}`. -/
def convertExtract (content : String) : JsLLMResponse :=
  match parseStep (cleanContent content) with
  | some r => r
  | none =>
    match (extractFromText content).fofa_query with
    | some q => if q == "" then ⟨.null, .str "无法解析LLM响应"⟩
                else ⟨.str q, .str (extractFromText content).explanation⟩
    | none => ⟨.null, .str "无法解析LLM响应"⟩

/-- The value at `responseData.candidates[0].content.parts[0].text`,
when the walk does not throw.  An intermediate `null`/`undefined` link
would make JavaScript throw a `TypeError` part-way; here the walk
continues and yields a non-string, and `extractContent` turns every
non-string outcome of this path into the same modelled `TypeError` — the
observable outcome (a thrown `TypeError` reaching the outer catch) is
identical. -/
def candText (responseData : JVal) : JVal :=
  jsGet (jsIdx (jsGet (jsGet (jsIdx (jsGet responseData "candidates") 0)
    "content") "parts") 0) "text"

/-- The value at `responseData.choices[0].message.content`, with the same
outcome-level treatment of intermediate `TypeError`s as `candText`. -/
def choiceText (responseData : JVal) : JVal :=
  jsGet (jsGet (jsIdx (jsGet responseData "choices") 0) "message") "content"

/-- `LLMService.extractContent` from `src/llmService.ts`: picks the
textual payload out of the provider response envelope.  The very first
access `responseData.candidates` throws a `TypeError` when the envelope
is `null` (e.g. an HTTP body of `null`), modelled by `jsGetE`; a guard
passing commits to that envelope shape, whose payload must be a string
(anything else — a broken path or `.trim()` on a non-string — throws a
`TypeError`); neither guard matching throws the source's own
`"无法解析API响应格式"` error.  (`responseData.candidates[0]` is reached only
behind the truthiness of `responseData.candidates`, so the index access
itself cannot throw, as in the source's `&&` short-circuit.) -/
def extractContent (responseData : JVal) : Except String String :=
  match jsGetE responseData "candidates" with
  | .error m => .error m
  | .ok cands =>
    if jsTruthy cands && jsTruthy (jsIdx cands 0) then
      match candText responseData with
      | .str s => .ok (jsTrim s)
      | _ => .error "TypeError"
    else
      match jsGetE responseData "choices" with
      | .error m => .error m
      | .ok chs =>
        if jsTruthy chs && jsTruthy (jsIdx chs 0) then
          match choiceText responseData with
          | .str s => .ok (jsTrim s)
          | _ => .error "TypeError"
        else .error "无法解析API响应格式"

/-- The response envelope fully matches the
`candidates[0].content.parts[0].text` shape: both truthiness guards pass
and the payload at the path is a string. -/
def candidatesShape (v : JVal) : Prop :=
  jsTruthy (jsGet v "candidates") = true ∧
  jsTruthy (jsIdx (jsGet v "candidates") 0) = true ∧
  ∃ s, candText v = JVal.str s

/-- The response envelope fully matches the `choices[0].message.content`
shape. -/
def choicesShape (v : JVal) : Prop :=
  jsTruthy (jsGet v "choices") = true ∧
  jsTruthy (jsIdx (jsGet v "choices") 0) = true ∧
  ∃ s, choiceText v = JVal.str s

/-- Oracle for the single completion-service call of
`convertTextToFofaQuery`: either the HTTP request resolved and
`response.data` is the given JavaScript value, or it threw an error
(network failure, timeout, non-2xx status) with the given message. -/
inductive LLMNet where
  | ok (responseData : JVal)
  | err (msg : String)

/-- `LLMService.convertTextToFofaQuery` from `src/llmService.ts`, with
the network call replaced by the oracle.  Every error reaching the outer
`catch` — a rejected HTTP request or a throw from `extractContent` — is
re-thrown as `` `LLM服务调用失败: ${message}` ``; the inner extraction
region never throws (see `convertExtract`). -/
def convertTextToFofaQuery (net : LLMNet) : Except String JsLLMResponse :=
  match net with
  | .err m => .error ("LLM服务调用失败: " ++ m)
  | .ok v =>
    match extractContent v with
    | .error m => .error ("LLM服务调用失败: " ++ m)
    | .ok content => .ok (convertExtract content)

/-! ### Theorems -/

lemma string_length_zero {t : String} (h : t.length = 0) : t = "" := by
  cases t with
  | mk d =>
    cases d with
    | nil => rfl
    | cons a l => simp [String.length] at h

/-- **C3.** `validateQuery s` returns `true` iff `s` is non-empty after
trimming whitespace, the number of double quotes in `s` is even, the
number of `(` equals the number of `)`, and `s` contains a `=`/`:`
character or at least one word character.  In particular it is `false` on
empty or whitespace-only input and on quote- or paren-unbalanced strings.
The function is a total Lean definition, hence deterministic and
exception-free. -/
theorem validateQuery_spec (s : String) :
    validateQuery s = true ↔
      (jsTrim s ≠ "" ∧ s.data.count '"' % 2 = 0 ∧
       s.data.count '(' = s.data.count ')' ∧
       (s.data.any (fun c => c == '=' || c == ':') = true ∨
        s.data.any isWordChar = true)) := by
  have hcond : (s == "" || (jsTrim s).length == 0) = true ↔ jsTrim s = "" := by
    constructor
    · intro h
      rcases Bool.or_eq_true _ _ |>.mp h with h | h
      · have hs : s = "" := beq_iff_eq.mp h
        subst hs; rfl
      · exact string_length_zero (beq_iff_eq.mp h)
    · intro h
      apply Bool.or_eq_true _ _ |>.mpr
      right
      simp [h]
  unfold validateQuery
  by_cases hE : jsTrim s = ""
  · rw [if_pos (hcond.mpr hE)]
    simp [hE]
  · rw [if_neg (fun hc => hE (hcond.mp hc))]
    simp only [Bool.and_eq_true, Bool.or_eq_true, beq_iff_eq]
    constructor
    · rintro ⟨⟨hsyn, hq⟩, hp⟩
      refine ⟨hE, ?_, hp, hsyn⟩
      rcases hq with h | h
      · omega
      · exact h
    · rintro ⟨-, hq, hp, hsyn⟩
      exact ⟨⟨hsyn, Or.inr hq⟩, hp⟩

/-- Witness for C3: a concrete well-formed query validates. -/
theorem validateQuery_spec_witness :
    validateQuery "title=\"admin\" && (port=443)" = true :=
  (validateQuery_spec _).mpr (by decide)

/-- **C2.** `executeFofaQuery` fails with the invalid-query error carrying
the original query string — independently of the network oracle, i.e.
without any remote call — whenever validation fails; otherwise its
failures are classified in the source's priority order: HTTP 401 →
authentication failure, HTTP 403 → quota/access denial, client-side
timeout (`ECONNABORTED`) → timeout, a set `error` flag in a 2xx payload →
the in-band API error, anything else → the generic failure wrapping the
underlying message; the fixed messages are pairwise distinct. -/
theorem executeFofaQuery_classification :
    (∀ q size page net, validateQuery q = false →
        executeFofaQuery net q size page = .error ("无效的FOFA查询语法: " ++ q))
  ∧ (∀ q size page resp, validateQuery q = true → resp.error = true →
        executeFofaQuery (.ok resp) q size page =
          .error "FOFA查询执行失败: FOFA API返回错误，请检查查询语法或API配置")
  ∧ (∀ q size page e, validateQuery q = true → e.isAxiosError = true →
        e.status = some 401 →
        executeFofaQuery (.err e) q size page =
          .error "FOFA API认证失败，请检查email和API key配置")
  ∧ (∀ q size page e, validateQuery q = true → e.isAxiosError = true →
        e.status ≠ some 401 → e.status = some 403 →
        executeFofaQuery (.err e) q size page =
          .error "FOFA API访问被拒绝，可能是查询配额不足")
  ∧ (∀ q size page e, validateQuery q = true → e.isAxiosError = true →
        e.status ≠ some 401 → e.status ≠ some 403 → e.code = some "ECONNABORTED" →
        executeFofaQuery (.err e) q size page =
          .error "FOFA API请求超时，请稍后重试")
  ∧ (∀ q size page e, validateQuery q = true →
        (e.isAxiosError = false ∨
         (e.status ≠ some 401 ∧ e.status ≠ some 403 ∧ e.code ≠ some "ECONNABORTED")) →
        executeFofaQuery (.err e) q size page =
          .error ("FOFA查询执行失败: " ++ e.message))
  ∧ (∀ q size page resp, validateQuery q = true → resp.error = false →
        executeFofaQuery (.ok resp) q size page = .ok (transformResults resp.results))
  ∧ (["FOFA API认证失败，请检查email和API key配置",
      "FOFA API访问被拒绝，可能是查询配额不足",
      "FOFA API请求超时，请稍后重试",
      "FOFA查询执行失败: FOFA API返回错误，请检查查询语法或API配置"] : List String).Pairwise (· ≠ ·) := by
  refine ⟨?_, ?_, ?_, ?_, ?_, ?_, ?_, by decide⟩
  · intro q size page net h
    simp [executeFofaQuery, h]
  · intro q size page resp hv he
    simp [executeFofaQuery, hv, he]
  · intro q size page e hv ha hs
    simp [executeFofaQuery, hv, ha, hs]
  · intro q size page e hv ha h1 h3
    simp [executeFofaQuery, hv, ha, h1, h3]
  · intro q size page e hv ha h1 h3 hc
    simp [executeFofaQuery, hv, ha, h1, h3, hc]
  · intro q size page e hv hcase
    rcases hcase with ha | ⟨h1, h3, hc⟩
    · simp [executeFofaQuery, hv, ha]
    · simp [executeFofaQuery, hv, h1, h3, hc]
  · intro q size page resp hv he
    simp [executeFofaQuery, hv, he]

/-- Witness for C2: a concrete HTTP-401 failure classifies as the
authentication error. -/
theorem executeFofaQuery_classification_witness :
    executeFofaQuery (.err ⟨true, some 401, none, "Request failed"⟩) "port=443" 10 1 =
      .error "FOFA API认证失败，请检查email和API key配置" :=
  executeFofaQuery_classification.2.2.1 "port=443" 10 1 ⟨true, some 401, none, "Request failed"⟩
    (by decide) rfl rfl

lemma string_data_append (a b : String) : (a ++ b).data = a.data ++ b.data := rfl

/-- **C1.** The coordinator's natural-language run: a non-truthy
translated query short-circuits to `success:=false` with an error message
containing the original input and the translation's explanation, and the
result does not depend on the search client (it is never invoked); any
error raised by either client becomes `success:=false` with that error
message; and every `success:=true` result carries data, query and
explanation and no error. -/
theorem processUserQuery_contract :
    ∀ (fofa : String → Nat → Except String (List FofaResult)) (input : String) (size : Nat),
      (∀ r, jsTruthyOpt r.fofa_query = false →
        processUserQuery (.ok r) fofa input size =
          ⟨false, none,
            some ("无法理解您的查询请求: \"" ++ input ++ "\"\n" ++ r.explanation),
            none, none⟩
        ∧ (∀ fofa', processUserQuery (.ok r) fofa' input size
              = processUserQuery (.ok r) fofa input size)
        ∧ input.data <:+:
            ("无法理解您的查询请求: \"" ++ input ++ "\"\n" ++ r.explanation).data
        ∧ r.explanation.data <:+:
            ("无法理解您的查询请求: \"" ++ input ++ "\"\n" ++ r.explanation).data)
      ∧ (∀ m, processUserQuery (.error m) fofa input size =
          ⟨false, none, some m, none, none⟩)
      ∧ (∀ r q m, r.fofa_query = some q → q ≠ "" → fofa q size = .error m →
           processUserQuery (.ok r) fofa input size = ⟨false, none, some m, none, none⟩)
      ∧ (∀ llm, (processUserQuery llm fofa input size).success = true →
           (processUserQuery llm fofa input size).error = none ∧
           (processUserQuery llm fofa input size).data.isSome = true ∧
           (processUserQuery llm fofa input size).query.isSome = true ∧
           (processUserQuery llm fofa input size).explanation.isSome = true) := by
  intro fofa input size
  refine ⟨?_, ?_, ?_, ?_⟩
  · intro r h
    have key : ∀ f' : String → Nat → Except String (List FofaResult),
        processUserQuery (.ok r) f' input size =
          ⟨false, none,
            some ("无法理解您的查询请求: \"" ++ input ++ "\"\n" ++ r.explanation),
            none, none⟩ := by
      intro f'
      cases hq : r.fofa_query with
      | none => simp [processUserQuery, hq]
      | some q =>
        have hq0 : q = "" := by
          simpa [jsTruthyOpt, hq] using h
        subst hq0
        simp [processUserQuery, hq]
    refine ⟨key fofa, fun f' => (key f').trans (key fofa).symm, ?_, ?_⟩
    · exact ⟨"无法理解您的查询请求: \"".data, ("\"\n" ++ r.explanation).data,
        by simp [string_data_append]⟩
    · exact ⟨("无法理解您的查询请求: \"" ++ input ++ "\"\n").data, [],
        by simp [string_data_append]⟩
  · intro m; rfl
  · intro r q m hq hq0 hf
    simp [processUserQuery, hq, hq0, hf]
  · intro llm h
    cases llm with
    | error m => simp [processUserQuery] at h
    | ok r =>
      cases hq : r.fofa_query with
      | none => simp [processUserQuery, hq] at h
      | some q =>
        by_cases hq0 : q = ""
        · subst hq0
          simp [processUserQuery, hq] at h
        · cases hf : fofa q size with
          | error m => simp [processUserQuery, hq, hq0, hf] at h
          | ok results => simp [processUserQuery, hq, hq0, hf]

/-- Witness for C1: a concrete absent-query translation short-circuits. -/
theorem processUserQuery_contract_witness :
    processUserQuery (.ok ⟨none, "请求太模糊"⟩) (fun _ _ => .ok []) "找些酷网站" 5 =
      ⟨false, none,
        some ("无法理解您的查询请求: \"" ++ "找些酷网站" ++ "\"\n" ++ "请求太模糊"),
        none, none⟩ :=
  ((processUserQuery_contract (fun _ _ => .ok []) "找些酷网站" 5).1 ⟨none, "请求太模糊"⟩ rfl).1

/-- **C10.** In the coordinator's natural-language mode a
present-but-empty translated query is handled identically to an absent
one: same `success:=false` short-circuit, no dependence on the search
client; and whenever the search client is reached, it is applied exactly
to the translated query `q` with `q ≠ ""`, so the search client is only
ever invoked with a non-empty query string. -/
theorem processUserQuery_empty_query :
    (∀ (r : LLMResponse) (fofa : String → Nat → Except String (List FofaResult))
        input size, r.fofa_query = some "" →
        processUserQuery (.ok r) fofa input size
          = processUserQuery (.ok ⟨none, r.explanation⟩) fofa input size
      ∧ (∀ fofa', processUserQuery (.ok r) fofa' input size
          = processUserQuery (.ok r) fofa input size)
      ∧ (processUserQuery (.ok r) fofa input size).success = false)
  ∧ (∀ (r : LLMResponse) q (fofa : String → Nat → Except String (List FofaResult))
        input size, r.fofa_query = some q → q ≠ "" →
        processUserQuery (.ok r) fofa input size =
          (match fofa q size with
           | .error m => ⟨false, none, some m, none, none⟩
           | .ok results => ⟨true, some results, none, some q, some r.explanation⟩)) := by
  constructor
  · intro r fofa input size hq
    refine ⟨?_, ?_, ?_⟩ <;> simp [processUserQuery, hq]
  · intro r q fofa input size hq hq0
    simp [processUserQuery, hq, hq0]

/-- Witness for C10: the empty-string query behaves like the absent one. -/
theorem processUserQuery_empty_query_witness :
    processUserQuery (.ok ⟨some "", "空查询"⟩) (fun _ _ => .ok []) "输入" 9 =
      processUserQuery (.ok ⟨none, "空查询"⟩) (fun _ _ => .ok []) "输入" 9 :=
  ((processUserQuery_empty_query.1 ⟨some "", "空查询"⟩ (fun _ _ => .ok []) "输入" 9) rfl).1

lemma takeWhile_all (p : Char → Bool) (l : List Char) : (l.takeWhile p).all p = true := by
  induction l with
  | nil => rfl
  | cons a l ih =>
    by_cases h : p a
    · simp [List.takeWhile_cons, h, ih]
    · simp [List.takeWhile_cons, h]

/-- A string recovered by one of the fallback regex captures: non-empty
and free of double quotes. -/
def goodCap (s : String) : Prop :=
  s ≠ "" ∧ s.data.all (fun c => c != '"') = true

lemma goodCap_default : goodCap "从文本中提取的查询" := ⟨by decide, by decide⟩

lemma matchQuotedCapture_good {cs : List Char} {s : String}
    (h : matchQuotedCapture cs = some s) : goodCap s := by
  simp only [matchQuotedCapture] at h
  split at h
  · split at h
    · split at h
      · exact absurd h (by simp)
      · rename_i hcap
        injection h with h'
        subst h'
        refine ⟨?_, takeWhile_all _ _⟩
        intro hempty
        apply hcap
        have hd := congrArg String.data hempty
        simpa using hd
    · exact absurd h (by simp)
  · exact absurd h (by simp)

lemma matchColonQuoted_good {cs : List Char} {s : String}
    (h : matchColonQuoted cs = some s) : goodCap s := by
  simp only [matchColonQuoted] at h
  split at h
  · exact matchQuotedCapture_good h
  · exact absurd h (by simp)

lemma tryKeyAt_good {key cs : List Char} {s : String}
    (h : tryKeyAt key cs = some s) : goodCap s := by
  simp only [tryKeyAt] at h
  split at h
  · exact matchColonQuoted_good h
  · exact absurd h (by simp)

lemma matchKeyQuoted_good {key : List Char} :
    ∀ {cs : List Char} {s : String}, matchKeyQuoted key cs = some s → goodCap s := by
  intro cs
  induction cs with
  | nil => intro s h; exact absurd h (by simp [matchKeyQuoted])
  | cons c rest ih =>
    intro s h
    simp only [matchKeyQuoted] at h
    split at h
    · rename_i s' heq
      injection h with h'
      exact h' ▸ tryKeyAt_good heq
    · exact ih h

lemma matchColonPat_good :
    ∀ {cs : List Char} {s : String}, matchColonPat cs = some s → goodCap s := by
  intro cs
  induction cs with
  | nil => intro s h; exact absurd h (by simp [matchColonPat])
  | cons c rest ih =>
    intro s h
    simp only [matchColonPat] at h
    split at h
    · split at h
      · rename_i s' heq
        injection h with h'
        exact h' ▸ matchQuotedCapture_good heq
      · exact ih h
    · exact ih h

lemma scanLines_good :
    ∀ (lines : List String) (acc : Option String × String),
      (∀ q, acc.1 = some q → goodCap q) → (acc.2 = "" ∨ goodCap acc.2) →
      (∀ q, (scanLines lines acc).1 = some q → goodCap q) ∧
      ((scanLines lines acc).2 = "" ∨ goodCap (scanLines lines acc).2) := by
  intro lines
  induction lines with
  | nil => intro acc h1 h2; exact ⟨h1, h2⟩
  | cons line rest ih =>
    intro acc h1 h2
    obtain ⟨fq, ex⟩ := acc
    simp only [scanLines]
    apply ih
    · intro q hq
      by_cases hc : (listContainsSub "fofa_query".data line.data
          && line.data.contains ':') = true
      · rw [if_pos hc] at hq
        cases hm : matchColonPat line.data with
        | some m =>
          rw [hm] at hq
          injection hq with h'
          exact h' ▸ matchColonPat_good hm
        | none =>
          rw [hm] at hq
          exact h1 q hq
      · rw [if_neg hc] at hq
        exact h1 q hq
    · dsimp only
      by_cases hc : (listContainsSub "explanation".data line.data
          && line.data.contains ':') = true
      · rw [if_pos hc]
        cases hm : matchColonPat line.data with
        | some m => exact Or.inr (matchColonPat_good hm)
        | none => exact h2
      · rw [if_neg hc]
        exact h2

lemma extractFromText_query_good {t : String} {q : String}
    (h : (extractFromText t).fofa_query = some q) : goodCap q := by
  simp only [extractFromText] at h
  split at h
  · rename_i q' e hq he
    injection h with h'
    exact h' ▸ matchKeyQuoted_good hq
  · have base := scanLines_good (jsSplitNewline t) (none, "")
      (fun q hq => by simp at hq) (Or.inl rfl)
    exact base.1 q h

lemma extractFromText_explanation_good (t : String) :
    goodCap (extractFromText t).explanation := by
  simp only [extractFromText]
  split
  · rename_i q' e hq he
    exact matchKeyQuoted_good he
  · have base := scanLines_good (jsSplitNewline t) (none, "")
      (fun q hq => by simp at hq) (Or.inl rfl)
    by_cases hex : ((scanLines (jsSplitNewline t) (none, "")).2 == "") = true
    · rw [if_pos hex]
      exact goodCap_default
    · rw [if_neg hex]
      rcases base.2 with h | h
      · exact absurd (beq_iff_eq.mpr h) hex
      · exact h

def escapedQuoteText : String :=
  "\"fofa_query\": \"country=\\\"US\\\"\"\n\"explanation\": \"y\""

def nullDecisionText : String :=
  "\x7b\"fofa_query\": null, \"explanation\": \"too vague\"\x7d"

def emptyQueryJson : String :=
  "\x7b\"fofa_query\": \"\", \"explanation\": \"x\"\x7d"

def fallbackDemoText : String := "x \"fofa_query\": \"a\""

/-- **C9.** Every query or explanation value recovered by the fallback
extraction is a non-empty string containing no double-quote character;
consequently, on the concrete text containing a backslash-escaped quote,
the recovered query is truncated at the backslash preceding that quote
(`country=\`) rather than recovered in full (`country="US"`). -/
theorem extractFromText_capture_invariant :
    (∀ t q, (extractFromText t).fofa_query = some q →
        q ≠ "" ∧ q.data.all (fun c => c != '"') = true)
  ∧ (∀ t, (extractFromText t).explanation ≠ "" ∧
        (extractFromText t).explanation.data.all (fun c => c != '"') = true)
  ∧ extractFromText escapedQuoteText = ⟨some "country=\\", "y"⟩
  ∧ ("country=\\" : String) ≠ "country=\"US\"" :=
  ⟨fun _ _ h => extractFromText_query_good h,
   fun t => extractFromText_explanation_good t, rfl, by decide⟩

/-- Witness for C9: the invariant applied to the concrete truncated
capture. -/
theorem extractFromText_capture_invariant_witness :
    ("country=\\" : String) ≠ "" ∧
    ("country=\\" : String).data.all (fun c => c != '"') = true :=
  extractFromText_capture_invariant.1 escapedQuoteText "country=\\" rfl

/-- **C7 counterexample.** On the raw text
`{"fofa_query": "", "explanation": "x"}` the strict-parse path returns a
*present* query value — the string `""`, which is neither `null` nor
`undefined` — that is empty, contradicting the claim that a present query
is always non-empty. -/
theorem convertExtract_empty_present_cex :
    (convertExtract emptyQueryJson).fofa_query = JVal.str "" ∧
    JVal.str "" ≠ JVal.null ∧ JVal.str "" ≠ JVal.undefined :=
  ⟨rfl, fun h => JVal.noConfusion h, fun h => JVal.noConfusion h⟩

/-- **C7 amended.** When the strict parse fails (so the query can only
come from the fallback extraction), a present string query in the
extraction result is non-empty and contains no double-quote character
(the extraction step introduces no quote characters into it); the strict
parse path, by contrast, forwards the parsed value verbatim and may yield
a present empty string. -/
theorem convertExtract_fallback_query :
    ∀ t s, jsonParse (cleanContent t) = none →
      (convertExtract t).fofa_query = JVal.str s →
      s ≠ "" ∧ s.data.all (fun c => c != '"') = true := by
  intro t s hp h
  have hps : parseStep (cleanContent t) = none := by
    simp [parseStep, hp]
  unfold convertExtract at h
  rw [hps] at h
  cases hq : (extractFromText t).fofa_query with
  | none =>
    rw [hq] at h
    exact absurd h (by simp)
  | some q =>
    rw [hq] at h
    dsimp only at h
    by_cases hq0 : (q == "") = true
    · rw [if_pos hq0] at h
      exact absurd h (by simp)
    · rw [if_neg hq0] at h
      dsimp only at h
      injection h with h'
      exact h' ▸ extractFromText_query_good hq

/-- Witness for C7 (amended): a concrete fallback-recovered query. -/
theorem convertExtract_fallback_query_witness :
    ("a" : String) ≠ "" ∧ ("a" : String).data.all (fun c => c != '"') = true :=
  convertExtract_fallback_query fallbackDemoText "a" rfl rfl

lemma jsGetE_ok {v : JVal} {k : String} {w : JVal}
    (h : jsGetE v k = .ok w) : w = jsGet v k := by
  cases v <;> simp [jsGetE] at h <;> exact h.symm

/-- **C4.** The response extraction is total: for every raw text the
result is one of three defined outcomes — the strict step's successful
field forwarding (`JSON.parse` succeeded *and* both property accesses
were exception-free), a fallback recovery with a truthy (non-empty)
query, or the fixed parse-failure result with an absent (`null`) query
and the generic explanation.  No input escapes these cases and nothing is
thrown (the function is a total Lean definition); in particular the
completion text `null`, where `JSON.parse` succeeds but the property
access then throws a `TypeError`, also degrades to the defined
parse-failure fallback. -/
theorem convertExtract_total :
    (∀ t,
      (∃ v, jsonParse (cleanContent t) = some v ∧
         jsGetE v "fofa_query" = .ok (jsGet v "fofa_query") ∧
         jsGetE v "explanation" = .ok (jsGet v "explanation") ∧
         convertExtract t = ⟨jsGet v "fofa_query", jsGet v "explanation"⟩)
      ∨ (parseStep (cleanContent t) = none ∧
         ∃ q, (extractFromText t).fofa_query = some q ∧ q ≠ "" ∧
           convertExtract t = ⟨JVal.str q, JVal.str (extractFromText t).explanation⟩)
      ∨ (parseStep (cleanContent t) = none ∧
         convertExtract t = ⟨JVal.null, JVal.str "无法解析LLM响应"⟩))
    ∧ convertExtract "null" = ⟨JVal.null, JVal.str "无法解析LLM响应"⟩ := by
  constructor
  · intro t
    cases hps : parseStep (cleanContent t) with
    | some r =>
      left
      have hce : convertExtract t = r := by
        unfold convertExtract
        rw [hps]
      have hdis := hps
      unfold parseStep at hdis
      cases hp : jsonParse (cleanContent t) with
      | none =>
        rw [hp] at hdis
        exact absurd hdis (by simp)
      | some v =>
        rw [hp] at hdis
        dsimp only at hdis
        cases h1 : jsGetE v "fofa_query" with
        | error m =>
          rw [h1] at hdis
          exact absurd hdis (by simp)
        | ok q =>
          rw [h1] at hdis
          cases h2 : jsGetE v "explanation" with
          | error m =>
            rw [h2] at hdis
            exact absurd hdis (by simp)
          | ok e =>
            rw [h2] at hdis
            injection hdis with hdis'
            obtain rfl := hdis'.symm
            obtain rfl := jsGetE_ok h1
            obtain rfl := jsGetE_ok h2
            exact ⟨v, rfl, h1, h2, hce⟩
    | none =>
      cases hq : (extractFromText t).fofa_query with
      | none =>
        right; right
        exact ⟨rfl, by simp [convertExtract, hps, hq]⟩
      | some q =>
        by_cases hq0 : q = ""
        · right; right
          subst hq0
          exact ⟨rfl, by simp [convertExtract, hps, hq]⟩
        · right; left
          exact ⟨rfl, q, rfl, hq0, by simp [convertExtract, hps, hq, hq0]⟩
  · rfl

/-- **C6.** If the cleaned raw text parses as the structured object
`{"fofa_query": null, "explanation": "too vague"}`, extraction returns
the literal-null (absent, falsy) query with the model's explanation
preserved, which differs from the generic parse-failure explanation. -/
theorem convertExtract_null_passthrough :
    ∀ t, jsonParse (cleanContent t) =
        some (JVal.obj [("fofa_query", JVal.null), ("explanation", JVal.str "too vague")]) →
      convertExtract t = ⟨JVal.null, JVal.str "too vague"⟩ ∧
      jsTruthy (convertExtract t).fofa_query = false ∧
      (convertExtract t).explanation ≠ JVal.str "无法解析LLM响应" := by
  intro t h
  have h1 : convertExtract t = ⟨JVal.null, JVal.str "too vague"⟩ := by
    have hps : parseStep (cleanContent t) =
        some ⟨JVal.null, JVal.str "too vague"⟩ := by
      unfold parseStep
      rw [h]
      rfl
    unfold convertExtract
    rw [hps]
  refine ⟨h1, ?_, ?_⟩
  · rw [h1]
    rfl
  · rw [h1]
    intro hh
    injection hh with hh'
    exact absurd hh' (by decide)

/-- Witness for C6: the concrete null-decision text. -/
theorem convertExtract_null_passthrough_witness :
    convertExtract nullDecisionText = ⟨JVal.null, JVal.str "too vague"⟩ :=
  (convertExtract_null_passthrough nullDecisionText rfl).1

/-- **C5 counterexample.** On the claim's concrete text — containing
`"fofa_query": "country=\"US\""` and `"explanation": "y"` on separate
lines and no valid structured object — extraction does *not* recover the
query `country="US"`: it returns the truncated `country=\`. -/
theorem convertExtract_escaped_quote_cex :
    convertExtract escapedQuoteText = ⟨JVal.str "country=\\", JVal.str "y"⟩ ∧
    JVal.str "country=\\" ≠ JVal.str "country=\"US\"" :=
  ⟨rfl, fun h => by injection h with h'; exact absurd h' (by decide)⟩

/-- **C5 amended.** On that text, extraction recovers the explanation
`y` and the query truncated at the backslash of the escaped quote,
`country=\`, and it does so via the whole-text pattern scrape (both
whole-text regexes match), so the line-oriented fallback is never
reached; the strict parse indeed fails on this text. -/
theorem convertExtract_escaped_quote :
    convertExtract escapedQuoteText = ⟨JVal.str "country=\\", JVal.str "y"⟩ ∧
    matchKeyQuoted "fofa_query".data escapedQuoteText.data = some "country=\\" ∧
    matchKeyQuoted "explanation".data escapedQuoteText.data = some "y" ∧
    jsonParse (cleanContent escapedQuoteText) = none :=
  ⟨rfl, rfl, rfl, rfl⟩

/-- **C8.** Every error raised during the remote completion call, and
every response envelope matching neither recognised shape, makes
`convertTextToFofaQuery` raise the single wrapped translation error
carrying the underlying message; such errors are never swallowed — a
successful return happens exactly when content extraction succeeded, and
is then the extraction of that content. -/
theorem convertTextToFofaQuery_errors :
    (∀ m, convertTextToFofaQuery (.err m) = .error ("LLM服务调用失败: " ++ m))
  ∧ (∀ v m, extractContent v = .error m →
       convertTextToFofaQuery (.ok v) = .error ("LLM服务调用失败: " ++ m))
  ∧ (∀ v, ¬ candidatesShape v → ¬ choicesShape v → ∃ m, extractContent v = .error m)
  ∧ (∀ v r, convertTextToFofaQuery (.ok v) = .ok r →
       ∃ content, extractContent v = .ok content ∧ r = convertExtract content) := by
  refine ⟨fun m => rfl, ?_, ?_, ?_⟩
  · intro v m h
    simp [convertTextToFofaQuery, h]
  · intro v hc1 hc2
    unfold extractContent
    cases hr1 : jsGetE v "candidates" with
    | error m => exact ⟨m, rfl⟩
    | ok cands =>
      obtain rfl := jsGetE_ok hr1
      dsimp only
      by_cases g1 : (jsTruthy (jsGet v "candidates") &&
          jsTruthy (jsIdx (jsGet v "candidates") 0)) = true
      · rw [if_pos g1]
        obtain ⟨g1a, g1b⟩ := Bool.and_eq_true _ _ |>.mp g1
        cases ht : candText v with
        | str s => exact absurd ⟨g1a, g1b, s, ht⟩ hc1
        | undefined => exact ⟨"TypeError", rfl⟩
        | null => exact ⟨"TypeError", rfl⟩
        | bool b => exact ⟨"TypeError", rfl⟩
        | num r => exact ⟨"TypeError", rfl⟩
        | arr l => exact ⟨"TypeError", rfl⟩
        | obj l => exact ⟨"TypeError", rfl⟩
      · rw [if_neg g1]
        cases hr2 : jsGetE v "choices" with
        | error m => exact ⟨m, rfl⟩
        | ok chs =>
          obtain rfl := jsGetE_ok hr2
          dsimp only
          by_cases g2 : (jsTruthy (jsGet v "choices") &&
              jsTruthy (jsIdx (jsGet v "choices") 0)) = true
          · rw [if_pos g2]
            obtain ⟨g2a, g2b⟩ := Bool.and_eq_true _ _ |>.mp g2
            cases ht : choiceText v with
            | str s => exact absurd ⟨g2a, g2b, s, ht⟩ hc2
            | undefined => exact ⟨"TypeError", rfl⟩
            | null => exact ⟨"TypeError", rfl⟩
            | bool b => exact ⟨"TypeError", rfl⟩
            | num r => exact ⟨"TypeError", rfl⟩
            | arr l => exact ⟨"TypeError", rfl⟩
            | obj l => exact ⟨"TypeError", rfl⟩
          · rw [if_neg g2]
            exact ⟨"无法解析API响应格式", rfl⟩
  · intro v r h
    dsimp only [convertTextToFofaQuery] at h
    cases he : extractContent v with
    | error m =>
      rw [he] at h
      exact absurd h (by simp)
    | ok content =>
      rw [he] at h
      injection h with h'
      exact ⟨content, rfl, h'.symm⟩

/-- Witness for C8: an envelope matching neither shape raises the
wrapped format error. -/
theorem convertTextToFofaQuery_errors_witness :
    convertTextToFofaQuery (.ok (JVal.obj [])) =
      .error ("LLM服务调用失败: " ++ "无法解析API响应格式") :=
  convertTextToFofaQuery_errors.2.1 (JVal.obj []) "无法解析API响应格式" rfl
